import Mathlib

/-!
# FCFS page-fault tracker of the file administration system

A shallow embedding of `PageFaultAnalyzer` and of the part of
`FileManagementSystem` that feeds it (`src/code.cpp`), followed by the
properties of the tracker.

Conventions of the embedding.

* `vector<int> frames` and `queue<int> pageQueue` are lists; the front of the
  queue is the head of the list, `push` appends at the end.
* The `int` members (`pageFaults`, `pageHits`, `nextPageId`, `frameSize`) are
  integers, and the `int` operations on the counters, `++` and `+`, are
  followed as the compiled program carries them out, in 32-bit two's
  complement: the result is reduced into the `int` range (`wrapInt`), so that
  `2147483647 + 1` is `-2147483648`.
* The two conversions between `int` and `size_t` that the source performs are
  embedded with their modulus: the comparison `frames.size() >= frameSize`
  converts `frameSize` to `size_t` (`toSizeT`), and `(int)pageHistory.size()`
  converts a size to `int` (`toInt`).
* The hit ratio is a `double`: the operands are converted exactly, the
  quotient and the product are each rounded to the nearest binary64 value,
  ties to even (`toDouble`), and `fixed << setprecision(2)` rounds the exact
  value of that `double` to two decimals, ties to even (`fixed2`). A `double`
  is represented by the rational number it denotes.
* Appending to `page_fault_log.txt` / `file_operations_log.txt` and printing
  to the terminal do not touch the tracker and are left out; what
  `displayAnalysis` prints is returned as a value.
-/

namespace OSProject

/-- One entry of the reference history (`struct PageReference`). -/
structure PageReference where
  pageId : Int
  operation : String
  filename : String
  isHit : Bool
deriving DecidableEq

/-- The private members of `class PageFaultAnalyzer`. -/
structure PageFaultAnalyzer where
  frames : List Int
  pageQueue : List Int
  pageHistory : List PageReference
  frameSize : Int
  pageFaults : Int
  pageHits : Int
deriving DecidableEq

/-- Value of an `int` after the conversion to the 64-bit unsigned `size_t`
that `frames.size() >= frameSize` applies to its right operand. -/
def toSizeT (x : Int) : Nat := (x % 2 ^ 64).toNat

/-- Value of a `size_t` after the cast `(int)`: reduction modulo `2 ^ 32` into
the range of a 32-bit `int`. -/
def toInt (n : Nat) : Int := ((n : Int) + 2 ^ 31) % 2 ^ 32 - 2 ^ 31

/-- Result of an `int` operation whose mathematical result is `x`, as the
compiled program produces it: `x` reduced modulo `2 ^ 32` into the range of a
32-bit two's complement `int`. -/
def wrapInt (x : Int) : Int := (x + 2 ^ 31) % 2 ^ 32 - 2 ^ 31

/-- Nearest integer, a tie going to the even neighbour. -/
def roundHalfEven (q : ℚ) : ℤ :=
  if q - (⌊q⌋ : ℤ) < 1 / 2 then ⌊q⌋
  else if 1 / 2 < q - (⌊q⌋ : ℤ) then ⌊q⌋ + 1
  else if ⌊q⌋ % 2 = 0 then ⌊q⌋
  else ⌊q⌋ + 1

/-- The binary64 value that an arithmetic operation of exact result `q`
delivers (round to nearest, ties to even): `q` is rounded to a multiple of the
spacing `2 ^ (e - 52)` of its binade, `e` being the exponent of `q`, not below
the least normal exponent `-1022`. Results beyond the largest finite `double`
do not occur for a quotient of two `int`s or its product with 100 and are not
represented. -/
def toDouble (q : ℚ) : ℚ :=
  if q = 0 then 0
  else
    let e : ℤ := max (Int.log 2 |q|) (-1022)
    (if q < 0 then -1 else 1) * ((roundHalfEven (|q| / (2 : ℚ) ^ (e - 52)) : ℤ) : ℚ) *
      (2 : ℚ) ^ (e - 52)

namespace PageFaultAnalyzer

/-- Default value of the constructor argument (`int frames = 4`). -/
def defaultFrames : Int := 4

/-- The constructor `PageFaultAnalyzer(int frames)`: the three containers are
default-constructed (empty), the counters are zero. It has no failing path. -/
def new (frames : Int) : PageFaultAnalyzer :=
  { frames := [], pageQueue := [], pageHistory := [],
    frameSize := frames, pageFaults := 0, pageHits := 0 }

/-- Method `logPageFault`: push one record at the back of `pageHistory`. -/
def logPageFault (s : PageFaultAnalyzer) (pageId : Int) (operation filename : String)
    (isHit : Bool) : PageFaultAnalyzer :=
  { s with pageHistory := s.pageHistory ++
      [{ pageId := pageId, operation := operation, filename := filename, isHit := isHit }] }

/-- The loop `while (!pageQueue.empty()) pageQueue.pop();` of `reset`. -/
def popAll : List Int → List Int
  | [] => []
  | _ :: rest => popAll rest

/-- Method `reset`: clear the three containers and zero both counters;
`frameSize` is kept. -/
def reset (s : PageFaultAnalyzer) : PageFaultAnalyzer :=
  { s with frames := [], pageQueue := popAll s.pageQueue, pageHistory := [],
           pageFaults := 0, pageHits := 0 }

/-- The eviction block of `processPageReference` (source lines 86-90), entered
when `frames.size() >= frameSize && !frames.empty()`: take the front of the
queue, pop it, and erase every occurrence of it from `frames`.
`front()` of an empty queue has no defined result; the embedding then leaves
the state as it is, a case that `inv_processPageReference` shows is never
reached from a constructed tracker. -/
def evictOldest (s : PageFaultAnalyzer) : PageFaultAnalyzer :=
  match s.pageQueue with
  | [] => s
  | oldestPage :: rest =>
    { s with pageQueue := rest, frames := s.frames.filter (fun p => p ≠ oldestPage) }

/-- Method `processPageReference`: the returned flag is `true` for a hit. A
resident identifier counts a hit and is logged; any other counts a fault,
evicts the oldest resident under the guard
`frames.size() >= frameSize && !frames.empty()`, and is pushed at the back of
`frames` and of `pageQueue` before it is logged. -/
def processPageReference (s : PageFaultAnalyzer) (pageId : Int)
    (operation filename : String) : Bool × PageFaultAnalyzer :=
  if pageId ∈ s.frames then
    (true, logPageFault { s with pageHits := wrapInt (s.pageHits + 1) } pageId operation
      filename true)
  else
    let s1 := { s with pageFaults := wrapInt (s.pageFaults + 1) }
    let s2 := if toSizeT s1.frameSize ≤ s1.frames.length ∧ s1.frames ≠ [] then evictOldest s1
              else s1
    let s3 := { s2 with frames := s2.frames ++ [pageId], pageQueue := s2.pageQueue ++ [pageId] }
    (false, logPageFault s3 pageId operation filename false)

/-- Rendering of a `double` by `fixed << setprecision(2)`: its exact value
rounded to a multiple of `1/100`, a tie going to the even last digit (3.125 is
printed 3.12). The sign of a zero is not represented. -/
def fixed2 (x : ℚ) : ℚ := ((roundHalfEven (x * 100) : ℤ) : ℚ) / 100

/-- The "Hit ratio" line of `displayAnalysis` (source lines 106-109): it is
printed only under the guard `pageFaults + pageHits > 0`, and shows
`(double)pageHits / (pageFaults + pageHits) * 100`. Both conversions of an
`int` to `double` are exact. -/
def hitRatioLine (s : PageFaultAnalyzer) : Option ℚ :=
  if wrapInt (s.pageFaults + s.pageHits) > 0 then
    some (fixed2 (toDouble
      (toDouble ((s.pageHits : ℚ) / ((wrapInt (s.pageFaults + s.pageHits) : Int) : ℚ)) * 100)))
  else none

/-- First index of the window:
`int start = max(0, (int)pageHistory.size() - 5);` -/
def recentStart (history : List PageReference) : Int :=
  max 0 (toInt history.length - 5)

/-- The loop `for (int i = start; i < pageHistory.size(); i++)` printing
`pageHistory[i]`; `fuel` bounds the number of iterations. -/
def recentLoop (history : List PageReference) : Nat → Nat → List PageReference
  | _, 0 => []
  | i, fuel + 1 =>
    if h : i < history.length then history.get ⟨i, h⟩ :: recentLoop history (i + 1) fuel
    else []

/-- What `displayAnalysis` prints. -/
structure Analysis where
  totalReferences : Int
  pageHits : Int
  pageFaults : Int
  hitRatio : Option ℚ
  pagesInMemory : List Int
  recentReferences : List PageReference

/-- Method `displayAnalysis`; the loop gets as many iterations as the history has
entries, which is all it can use. -/
def displayAnalysis (s : PageFaultAnalyzer) : Analysis :=
  { totalReferences := wrapInt (s.pageFaults + s.pageHits),
    pageHits := s.pageHits,
    pageFaults := s.pageFaults,
    hitRatio := hitRatioLine s,
    pagesInMemory := s.frames,
    recentReferences :=
      recentLoop s.pageHistory (recentStart s.pageHistory).toNat s.pageHistory.length }

end PageFaultAnalyzer

open PageFaultAnalyzer

/-- The three arguments of one call of `processPageReference`. -/
structure Reference where
  pageId : Int
  operation : String
  filename : String
deriving DecidableEq

/-- The history record that a call with arguments `r` and outcome `isHit` logs. -/
def Reference.record (r : Reference) (isHit : Bool) : PageReference :=
  { pageId := r.pageId, operation := r.operation, filename := r.filename, isHit := isHit }

/-- A sequence of `processPageReference` calls: the returned flags, in call
order, and the final tracker. -/
def processAll (s : PageFaultAnalyzer) : List Reference → List Bool × PageFaultAnalyzer
  | [] => ([], s)
  | r :: rest =>
    let step := processPageReference s r.pageId r.operation r.filename
    let tail := processAll step.2 rest
    (step.1 :: tail.1, tail.2)

/-- A call of one of the two mutating methods of the tracker. -/
inductive Call where
  | process (r : Reference)
  | reset
deriving DecidableEq

/-- The tracker after one call. -/
def Call.apply (s : PageFaultAnalyzer) : Call → PageFaultAnalyzer
  | Call.process r => (processPageReference s r.pageId r.operation r.filename).2
  | Call.reset => PageFaultAnalyzer.reset s

/-- The tracker after a sequence of calls. -/
def runCalls (s : PageFaultAnalyzer) (calls : List Call) : PageFaultAnalyzer :=
  calls.foldl Call.apply s

/-- The members of `class FileManagementSystem`. -/
structure FileManagementSystem where
  loggedInUser : String
  pageAnalyzer : PageFaultAnalyzer
  nextPageId : Int
deriving DecidableEq

namespace FileManagementSystem

/-- The constructor: `pageAnalyzer` is default-constructed, `nextPageId(1)`. -/
def new : FileManagementSystem :=
  { loggedInUser := "",
    pageAnalyzer := PageFaultAnalyzer.new defaultFrames,
    nextPageId := 1 }

/-- Method `generatePageId`: `return nextPageId++;`. -/
def generatePageId (fms : FileManagementSystem) (_operation _filename : String) :
    Int × FileManagementSystem :=
  (fms.nextPageId, { fms with nextPageId := wrapInt (fms.nextPageId + 1) })

/-- Method `logOperation`, with the flag that `processPageReference` returned (the
source drops it). -/
def logOperationFlag (fms : FileManagementSystem) (operation filename : String) :
    Bool × FileManagementSystem :=
  let gen := generatePageId fms operation filename
  let step := processPageReference gen.2.pageAnalyzer gen.1 operation filename
  (step.1, { gen.2 with pageAnalyzer := step.2 })

/-- Method `logOperation`: draw the next identifier and hand it to the
tracker. -/
def logOperation (fms : FileManagementSystem) (operation filename : String) :
    FileManagementSystem :=
  (logOperationFlag fms operation filename).2

/-- Method `resetPageFaultAnalysis`: reset the tracker and restart the
identifiers at 1. -/
def resetPageFaultAnalysis (fms : FileManagementSystem) : FileManagementSystem :=
  { fms with pageAnalyzer := PageFaultAnalyzer.reset fms.pageAnalyzer, nextPageId := 1 }

end FileManagementSystem

/-- A user action that reaches the tracker. -/
inductive Action where
  | logOperation (operation filename : String)
  | resetPageFaultAnalysis
deriving DecidableEq

/-- The system after one action. -/
def Action.apply (fms : FileManagementSystem) : Action → FileManagementSystem
  | Action.logOperation operation filename =>
    FileManagementSystem.logOperation fms operation filename
  | Action.resetPageFaultAnalysis => FileManagementSystem.resetPageFaultAnalysis fms

/-- The system after a sequence of actions. -/
def runActions (fms : FileManagementSystem) (actions : List Action) : FileManagementSystem :=
  actions.foldl Action.apply fms

/-- Whether, in the run of `actions` from `fms`, some `nextPageId++` of
`generatePageId` is executed with `nextPageId` at the largest `int`, that is,
whether `nextPageId` overflows. -/
def nextPageIdOverflows (fms : FileManagementSystem) : List Action → Bool
  | [] => false
  | Action.logOperation operation filename :: rest =>
    decide (2147483647 ≤ fms.nextPageId) ||
      nextPageIdOverflows (FileManagementSystem.logOperation fms operation filename) rest
  | Action.resetPageFaultAnalysis :: rest =>
    nextPageIdOverflows (FileManagementSystem.resetPageFaultAnalysis fms) rest

/-- Number of `logOperation` actions after the last `resetPageFaultAnalysis`. -/
def loggedSinceReset : List Action → Nat
  | [] => 0
  | Action.logOperation _ _ :: rest =>
    if Action.resetPageFaultAnalysis ∈ rest then loggedSinceReset rest
    else loggedSinceReset rest + 1
  | Action.resetPageFaultAnalysis :: rest => loggedSinceReset rest

/-! ## One call of `processPageReference` -/

theorem evictOldest_frameSize (s : PageFaultAnalyzer) :
    (evictOldest s).frameSize = s.frameSize := by
  unfold evictOldest
  split <;> rfl

theorem evictOldest_pageHistory (s : PageFaultAnalyzer) :
    (evictOldest s).pageHistory = s.pageHistory := by
  unfold evictOldest
  split <;> rfl

theorem evictOldest_pageHits (s : PageFaultAnalyzer) :
    (evictOldest s).pageHits = s.pageHits := by
  unfold evictOldest
  split <;> rfl

theorem evictOldest_pageFaults (s : PageFaultAnalyzer) :
    (evictOldest s).pageFaults = s.pageFaults := by
  unfold evictOldest
  split <;> rfl

theorem filter_ne_head_of_nodup (a : Int) (l : List Int) (h : (a :: l).Nodup) :
    (a :: l).filter (fun p => p ≠ a) = l := by
  have hnot : a ∉ l := (List.nodup_cons.mp h).1
  have hall : ∀ x ∈ l, ¬ x = a := fun x hx e => hnot (e ▸ hx)
  simpa [List.filter_cons] using hall

theorem evictOldest_of_inv (s : PageFaultAnalyzer) (hq : s.pageQueue = s.frames)
    (hn : s.frames.Nodup) :
    (evictOldest s).frames = s.frames.tail ∧ (evictOldest s).pageQueue = s.frames.tail := by
  unfold evictOldest
  cases hf : s.frames with
  | nil => simp [hq, hf]
  | cons a l =>
    rw [hf] at hq hn
    simp only [hq, List.tail_cons, and_true]
    exact filter_ne_head_of_nodup a l hn

theorem processPageReference_frameSize (s : PageFaultAnalyzer) (pageId : Int)
    (operation filename : String) :
    (processPageReference s pageId operation filename).2.frameSize = s.frameSize := by
  unfold processPageReference logPageFault
  split
  · rfl
  · simp only
    split
    · exact evictOldest_frameSize _
    · rfl

theorem processPageReference_hit (s : PageFaultAnalyzer) (pageId : Int)
    (operation filename : String) (h : pageId ∈ s.frames) :
    processPageReference s pageId operation filename =
      (true, { s with pageHits := wrapInt (s.pageHits + 1),
                      pageHistory := s.pageHistory ++
                        [{ pageId := pageId, operation := operation, filename := filename,
                           isHit := true }] }) := by
  simp [processPageReference, logPageFault, h]

theorem processPageReference_flag (s : PageFaultAnalyzer) (pageId : Int)
    (operation filename : String) :
    (processPageReference s pageId operation filename).1 = decide (pageId ∈ s.frames) := by
  unfold processPageReference
  split <;> simp [*]

theorem processPageReference_pageHistory (s : PageFaultAnalyzer) (pageId : Int)
    (operation filename : String) :
    (processPageReference s pageId operation filename).2.pageHistory =
      s.pageHistory ++ [{ pageId := pageId, operation := operation, filename := filename,
                          isHit := (processPageReference s pageId operation filename).1 }] := by
  unfold processPageReference logPageFault
  split
  · rfl
  · simp only
    split
    · rw [evictOldest_pageHistory]
    · rfl

theorem wrapInt_of_range (x : Int) (hlo : -2147483648 ≤ x) (hhi : x < 2147483648) :
    wrapInt x = x := by
  unfold wrapInt
  omega

theorem processPageReference_counters (s : PageFaultAnalyzer) (pageId : Int)
    (operation filename : String) :
    (processPageReference s pageId operation filename).2.pageHits =
        (if pageId ∈ s.frames then wrapInt (s.pageHits + 1) else s.pageHits) ∧
    (processPageReference s pageId operation filename).2.pageFaults =
        (if pageId ∈ s.frames then s.pageFaults else wrapInt (s.pageFaults + 1)) := by
  unfold processPageReference logPageFault
  split
  · simp
  · simp only
    split
    · simp [evictOldest_pageHits, evictOldest_pageFaults]
    · simp

/-- A fault on a tracker whose queue mirrors a duplicate-free `frames`: the
oldest resident leaves exactly when the eviction guard holds, and the new
identifier goes to the back of both containers. -/
theorem processPageReference_fault (s : PageFaultAnalyzer) (pageId : Int)
    (operation filename : String) (h : pageId ∉ s.frames)
    (hq : s.pageQueue = s.frames) (hn : s.frames.Nodup) :
    (processPageReference s pageId operation filename).2.frames =
      (if toSizeT s.frameSize ≤ s.frames.length ∧ s.frames ≠ [] then s.frames.tail
       else s.frames) ++ [pageId] ∧
    (processPageReference s pageId operation filename).2.pageQueue =
      (processPageReference s pageId operation filename).2.frames := by
  unfold processPageReference logPageFault
  rw [if_neg h]
  simp only
  split
  · have he := evictOldest_of_inv { s with pageFaults := wrapInt (s.pageFaults + 1) } hq hn
    simp only [he.1, he.2, and_self]
  · simp [hq]

/-- The queue mirrors `frames` and `frames` has no duplicate: kept by every
call of `processPageReference`. -/
theorem inv_processPageReference (s : PageFaultAnalyzer) (pageId : Int)
    (operation filename : String) (hq : s.pageQueue = s.frames) (hn : s.frames.Nodup) :
    (processPageReference s pageId operation filename).2.pageQueue =
      (processPageReference s pageId operation filename).2.frames ∧
    (processPageReference s pageId operation filename).2.frames.Nodup := by
  by_cases h : pageId ∈ s.frames
  · rw [processPageReference_hit s pageId operation filename h]
    exact ⟨hq, hn⟩
  · obtain ⟨hf, hpq⟩ := processPageReference_fault s pageId operation filename h hq hn
    refine ⟨hpq, ?_⟩
    rw [hf]
    split
    · refine List.Nodup.append (List.Nodup.sublist (List.tail_sublist _) hn)
        (List.nodup_singleton _) ?_
      intro x hx hx1
      rw [List.mem_singleton] at hx1
      exact h (hx1 ▸ List.mem_of_mem_tail hx)
    · refine List.Nodup.append hn (List.nodup_singleton _) ?_
      intro x hx hx1
      rw [List.mem_singleton] at hx1
      exact h (hx1 ▸ hx)

/-- Size of `frames` after a call, in terms of the size before. -/
theorem length_processPageReference_le (s : PageFaultAnalyzer) (pageId : Int)
    (operation filename : String) (hq : s.pageQueue = s.frames) (hn : s.frames.Nodup)
    (bound : Nat) (hb : s.frames.length ≤ max 1 bound) (hbound : bound = toSizeT s.frameSize) :
    (processPageReference s pageId operation filename).2.frames.length ≤ max 1 bound := by
  by_cases h : pageId ∈ s.frames
  · rw [processPageReference_hit s pageId operation filename h]
    exact hb
  · rw [(processPageReference_fault s pageId operation filename h hq hn).1]
    split
    · rename_i hc
      have hpos : 0 < s.frames.length := List.length_pos.mpr hc.2
      simp only [List.length_append, List.length_tail, List.length_singleton]
      omega
    · rename_i hc
      simp only [List.length_append, List.length_singleton]
      by_cases he : s.frames = []
      · simp [he]
      · have : ¬ toSizeT s.frameSize ≤ s.frames.length := fun hle => hc ⟨hle, he⟩
        omega

/-! ## Sequences of calls -/

theorem processAll_append (s : PageFaultAnalyzer) (xs ys : List Reference) :
    processAll s (xs ++ ys) =
      ((processAll s xs).1 ++ (processAll (processAll s xs).2 ys).1,
       (processAll (processAll s xs).2 ys).2) := by
  induction xs generalizing s with
  | nil => simp [processAll]
  | cons r rest ih => simp [processAll, ih]

theorem processAll_snoc (s : PageFaultAnalyzer) (xs : List Reference) (r : Reference) :
    (processAll s (xs ++ [r])).2 =
      (processPageReference (processAll s xs).2 r.pageId r.operation r.filename).2 ∧
    (processAll s (xs ++ [r])).1 =
      (processAll s xs).1 ++
        [(processPageReference (processAll s xs).2 r.pageId r.operation r.filename).1] := by
  rw [processAll_append]
  simp [processAll]

theorem processAll_flags_length (s : PageFaultAnalyzer) (refs : List Reference) :
    (processAll s refs).1.length = refs.length := by
  induction refs generalizing s with
  | nil => rfl
  | cons r rest ih => simp [processAll, ih]

theorem processAll_frameSize (s : PageFaultAnalyzer) (refs : List Reference) :
    (processAll s refs).2.frameSize = s.frameSize := by
  induction refs generalizing s with
  | nil => rfl
  | cons r rest ih =>
    simp only [processAll]
    rw [ih, processPageReference_frameSize]

theorem inv_processAll (s : PageFaultAnalyzer) (refs : List Reference)
    (hq : s.pageQueue = s.frames) (hn : s.frames.Nodup) :
    (processAll s refs).2.pageQueue = (processAll s refs).2.frames ∧
    (processAll s refs).2.frames.Nodup := by
  induction refs generalizing s with
  | nil => exact ⟨hq, hn⟩
  | cons r rest ih =>
    simp only [processAll]
    have hstep := inv_processPageReference s r.pageId r.operation r.filename hq hn
    exact ih _ hstep.1 hstep.2

theorem length_processAll_le (s : PageFaultAnalyzer) (refs : List Reference)
    (hq : s.pageQueue = s.frames) (hn : s.frames.Nodup)
    (hb : s.frames.length ≤ max 1 (toSizeT s.frameSize)) :
    (processAll s refs).2.frames.length ≤ max 1 (toSizeT s.frameSize) := by
  induction refs generalizing s with
  | nil => exact hb
  | cons r rest ih =>
    simp only [processAll]
    have hstep := inv_processPageReference s r.pageId r.operation r.filename hq hn
    have hlen := length_processPageReference_le s r.pageId r.operation r.filename hq hn
      (toSizeT s.frameSize) hb rfl
    have := ih (processPageReference s r.pageId r.operation r.filename).2 hstep.1 hstep.2
      (by rw [processPageReference_frameSize]; exact hlen)
    rw [processPageReference_frameSize] at this
    exact this

theorem processAll_pageHistory (s : PageFaultAnalyzer) (refs : List Reference) :
    (processAll s refs).2.pageHistory =
      s.pageHistory ++ List.zipWith Reference.record refs (processAll s refs).1 := by
  induction refs generalizing s with
  | nil => simp [processAll]
  | cons r rest ih =>
    simp only [processAll, List.zipWith_cons_cons]
    rw [ih, processPageReference_pageHistory]
    simp [Reference.record]

/-- While the number of references stays in the `int` range, both counters are
non-negative and their sum is the number of references processed. -/
theorem processAll_counters (s : PageFaultAnalyzer) (refs : List Reference)
    (hh : 0 ≤ s.pageHits) (hf : 0 ≤ s.pageFaults)
    (hlt : s.pageFaults + s.pageHits + (refs.length : Int) < 2147483648) :
    0 ≤ (processAll s refs).2.pageHits ∧ 0 ≤ (processAll s refs).2.pageFaults ∧
    (processAll s refs).2.pageFaults + (processAll s refs).2.pageHits =
      s.pageFaults + s.pageHits + (refs.length : Int) := by
  induction refs generalizing s with
  | nil => simpa [processAll] using ⟨hh, hf⟩
  | cons r rest ih =>
    simp only [processAll]
    simp only [List.length_cons, Nat.cast_add, Nat.cast_one] at hlt
    obtain ⟨h1, h2⟩ := processPageReference_counters s r.pageId r.operation r.filename
    have hw1 : wrapInt (s.pageHits + 1) = s.pageHits + 1 :=
      wrapInt_of_range _ (by omega) (by omega)
    have hw2 : wrapInt (s.pageFaults + 1) = s.pageFaults + 1 :=
      wrapInt_of_range _ (by omega) (by omega)
    rw [hw1] at h1
    rw [hw2] at h2
    have hstep :
        0 ≤ (processPageReference s r.pageId r.operation r.filename).2.pageHits ∧
        0 ≤ (processPageReference s r.pageId r.operation r.filename).2.pageFaults ∧
        (processPageReference s r.pageId r.operation r.filename).2.pageFaults +
          (processPageReference s r.pageId r.operation r.filename).2.pageHits =
          s.pageFaults + s.pageHits + 1 := by
      rw [h1, h2]
      split <;> omega
    obtain ⟨ih1, ih2, ih3⟩ := ih _ hstep.1 hstep.2.1 (by rw [hstep.2.2]; omega)
    refine ⟨ih1, ih2, ?_⟩
    rw [ih3, hstep.2.2]
    simp only [List.length_cons, Nat.cast_add, Nat.cast_one]
    omega

theorem toSizeT_le_of_pos (c : Int) (hc : 1 ≤ c) : ((max 1 (toSizeT c) : Nat) : Int) ≤ c := by
  unfold toSizeT
  omega

/-- Pairwise distinct identifiers on a fresh tracker: every call is a fault and
the residents are the most recent `max 1 (toSizeT c)` identifiers, oldest
first. -/
theorem processAll_distinct (c : Int) (refs : List Reference)
    (hnd : (refs.map Reference.pageId).Nodup) :
    (processAll (PageFaultAnalyzer.new c) refs).1 = List.replicate refs.length false ∧
    (processAll (PageFaultAnalyzer.new c) refs).2.frames =
      (refs.map Reference.pageId).drop (refs.length - max 1 (toSizeT c)) := by
  induction refs using List.reverseRecOn with
  | nil => simp [processAll, PageFaultAnalyzer.new]
  | append_singleton l a ih =>
    rw [List.map_append, List.nodup_append] at hnd
    obtain ⟨hl, -, hdisj⟩ := hnd
    obtain ⟨ihflags, ihframes⟩ := ih hl
    have hnew : a.pageId ∉ l.map Reference.pageId := by
      intro hm
      exact hdisj hm (by simp)
    obtain ⟨hq, hn⟩ := inv_processAll (PageFaultAnalyzer.new c) l rfl List.nodup_nil
    have hfs : (processAll (PageFaultAnalyzer.new c) l).2.frameSize = c :=
      processAll_frameSize _ _
    have hnotin : a.pageId ∉ (processAll (PageFaultAnalyzer.new c) l).2.frames := by
      rw [ihframes]
      exact fun hm => hnew (List.mem_of_mem_drop hm)
    obtain ⟨hsnoc2, hsnoc1⟩ := processAll_snoc (PageFaultAnalyzer.new c) l a
    constructor
    · rw [hsnoc1, processPageReference_flag, ihflags]
      simp [hnotin, List.replicate_succ']
    · rw [hsnoc2, (processPageReference_fault _ a.pageId a.operation a.filename hnotin hq hn).1,
        hfs]
      have hlenF : (processAll (PageFaultAnalyzer.new c) l).2.frames.length =
          l.length - (l.length - max 1 (toSizeT c)) := by
        rw [ihframes]; simp
      split
      · rename_i hg
        have hpos : 0 < (processAll (PageFaultAnalyzer.new c) l).2.frames.length :=
          List.length_pos.mpr hg.2
        have hge : max 1 (toSizeT c) ≤ l.length := by omega
        rw [ihframes, List.tail_drop, List.map_append, List.length_append,
          List.length_singleton,
          List.drop_append_of_le_length (by simp)]
        have : l.length + 1 - max 1 (toSizeT c) = l.length - max 1 (toSizeT c) + 1 := by omega
        rw [this]
        rfl
      · rename_i hg
        have hle : l.length + 1 ≤ max 1 (toSizeT c) := by
          by_cases he : (processAll (PageFaultAnalyzer.new c) l).2.frames = []
          · rw [he] at hlenF
            simp only [List.length_nil] at hlenF
            omega
          · have : ¬ toSizeT c ≤ (processAll (PageFaultAnalyzer.new c) l).2.frames.length :=
              fun h1 => hg ⟨h1, he⟩
            omega
        have h0 : l.length - max 1 (toSizeT c) = 0 := by omega
        have h1 : (l ++ [a]).length - max 1 (toSizeT c) = 0 := by
          rw [List.length_append, List.length_singleton]; omega
        rw [ihframes, h0, h1]
        simp

/-! ## The resident set is bounded by the capacity -/

/-- C1: for every capacity `c ≥ 1` and every sequence of references processed
from the freshly constructed tracker `PageFaultAnalyzer(c)`, after each call
(that is, after the first `k` calls, for every `k`) `frames` holds at most `c`
identifiers. -/
theorem frames_length_le_capacity (c : Int) (hc : 1 ≤ c) (refs : List Reference) (k : Nat) :
    ((processAll (PageFaultAnalyzer.new c) (refs.take k)).2.frames.length : Int) ≤ c := by
  have hlen := length_processAll_le (PageFaultAnalyzer.new c) (refs.take k) rfl List.nodup_nil
    (by simp [PageFaultAnalyzer.new])
  have hcap := toSizeT_le_of_pos c hc
  have hfs : (PageFaultAnalyzer.new c).frameSize = c := rfl
  rw [hfs] at hlen
  omega

/-- Capacity 2 and the identifiers 1, 2, 3, 1, 2: after three calls two
identifiers are resident. -/
theorem frames_length_le_capacity_witness :
    (1 : Int) ≤ 2 ∧
    ((processAll (PageFaultAnalyzer.new 2)
        (([⟨1, "READ", "u_a"⟩, ⟨2, "WRITE", "u_a"⟩, ⟨3, "READ", "u_b"⟩, ⟨1, "READ", "u_a"⟩,
           ⟨2, "DELETE", "u_a"⟩] : List Reference).take 3)).2.frames.length : Int) ≤ 2 :=
  ⟨by decide, frames_length_le_capacity 2 (by decide) _ 3⟩

/-! ## FIFO eviction -/

/-- C2: for every capacity `c` with `1 ≤ c` (an `int`, so `c < 2 ^ 31`) and every
list of `c + 1` pairwise distinct identifiers processed in order on an empty
tracker, all `c + 1` calls report a fault, and `frames` (and the queue) end as
the list without its first element, in the same order: the first identifier
admitted is the one evicted and is no longer resident. -/
theorem fifo_evicts_first_admitted (c : Nat) (hc : 1 ≤ c) (hint : c < 2 ^ 31)
    (refs : List Reference) (hlen : refs.length = c + 1)
    (hnd : (refs.map Reference.pageId).Nodup) :
    (processAll (PageFaultAnalyzer.new (c : Int)) refs).1 = List.replicate (c + 1) false ∧
    (processAll (PageFaultAnalyzer.new (c : Int)) refs).2.frames =
      (refs.map Reference.pageId).tail ∧
    (processAll (PageFaultAnalyzer.new (c : Int)) refs).2.pageQueue =
      (refs.map Reference.pageId).tail ∧
    (∀ r ∈ refs.head?,
      r.pageId ∉ (processAll (PageFaultAnalyzer.new (c : Int)) refs).2.frames) := by
  obtain ⟨hflags, hframes⟩ := processAll_distinct (c : Int) refs hnd
  obtain ⟨hq, -⟩ := inv_processAll (PageFaultAnalyzer.new (c : Int)) refs rfl List.nodup_nil
  have hK : toSizeT (c : Int) = c := by
    unfold toSizeT
    omega
  have hdrop : refs.length - max 1 (toSizeT (c : Int)) = 1 := by
    rw [hK, hlen]
    omega
  rw [hdrop, List.drop_one] at hframes
  refine ⟨by rw [hflags, hlen], hframes, by rw [hq, hframes], ?_⟩
  intro r hr
  rw [hframes]
  cases refs with
  | nil => simp at hr
  | cons a rest =>
    simp only [List.head?_cons, Option.mem_def, Option.some.injEq] at hr
    subst hr
    simp only [List.map_cons, List.tail_cons]
    exact (List.nodup_cons.mp hnd).1

/-- Capacity 2 and the identifiers 10, 20, 30: three faults, and 20, 30 stay. -/
theorem fifo_evicts_first_admitted_witness :
    (processAll (PageFaultAnalyzer.new ((2 : Nat) : Int))
        [⟨10, "CREATE", "u_a"⟩, ⟨20, "WRITE", "u_a"⟩, ⟨30, "READ", "u_a"⟩]).1 =
      List.replicate (2 + 1) false ∧
    (processAll (PageFaultAnalyzer.new ((2 : Nat) : Int))
        [⟨10, "CREATE", "u_a"⟩, ⟨20, "WRITE", "u_a"⟩, ⟨30, "READ", "u_a"⟩]).2.frames = [20, 30] :=
  have h := fifo_evicts_first_admitted 2 (by decide) (by decide)
    [⟨10, "CREATE", "u_a"⟩, ⟨20, "WRITE", "u_a"⟩, ⟨30, "READ", "u_a"⟩] (by decide) (by decide)
  ⟨h.1, h.2.1⟩

/-! ## A hit changes nothing but the hit counter and the history -/

/-- C3, refuted as stated: on a tracker whose `pageHits` is the largest `int`,
2147483647, a hit does not add one to the counter; the `int` overflows and
`pageHits` becomes -2147483648. -/
theorem hit_at_largest_pageHits_wraps :
    (processPageReference
      { frames := [1], pageQueue := [1], pageHistory := [],
        frameSize := 4, pageFaults := 1, pageHits := 2147483647 } 1 "READ" "u_a").1 = true ∧
    (processPageReference
      { frames := [1], pageQueue := [1], pageHistory := [],
        frameSize := 4, pageFaults := 1, pageHits := 2147483647 } 1 "READ" "u_a").2.pageHits =
      -2147483648 ∧
    (processPageReference
      { frames := [1], pageQueue := [1], pageHistory := [],
        frameSize := 4, pageFaults := 1, pageHits := 2147483647 } 1 "READ" "u_a").2.pageHits ≠
      2147483647 + 1 := by
  decide

/-- C3, amended: for every tracker state whose `pageHits` is an `int` below the
largest one (2147483647) and every identifier that is in `frames`,
`processPageReference` returns `true` (hit), leaves `frames` and `pageQueue` as
they are (members and order), adds exactly one to `pageHits`, leaves
`pageFaults` (and `frameSize`) alone, and appends exactly one history record,
with `isHit = true`. A hit therefore does not refresh the eviction position:
with capacity 4 and whatever operations and file names, the identifiers
1, 2, 3, 4, 1, 5 give fault, fault, fault, fault, hit, fault, residents
`[2, 3, 4, 5]`, one hit and five faults. -/
theorem hit_leaves_residents_unchanged (s : PageFaultAnalyzer) (pageId : Int)
    (operation filename : String) (h : pageId ∈ s.frames)
    (hlo : -2147483648 ≤ s.pageHits) (hhi : s.pageHits < 2147483647) :
    ((processPageReference s pageId operation filename).1 = true ∧
     (processPageReference s pageId operation filename).2.frames = s.frames ∧
     (processPageReference s pageId operation filename).2.pageQueue = s.pageQueue ∧
     (processPageReference s pageId operation filename).2.pageHits = s.pageHits + 1 ∧
     (processPageReference s pageId operation filename).2.pageFaults = s.pageFaults ∧
     (processPageReference s pageId operation filename).2.frameSize = s.frameSize ∧
     (processPageReference s pageId operation filename).2.pageHistory =
       s.pageHistory ++ [{ pageId := pageId, operation := operation, filename := filename,
                           isHit := true }]) ∧
    (∀ o1 f1 o2 f2 o3 f3 o4 f4 o5 f5 o6 f6 : String,
      (processAll (PageFaultAnalyzer.new 4)
        [⟨1, o1, f1⟩, ⟨2, o2, f2⟩, ⟨3, o3, f3⟩, ⟨4, o4, f4⟩, ⟨1, o5, f5⟩, ⟨5, o6, f6⟩]).1 =
        [false, false, false, false, true, false] ∧
      (processAll (PageFaultAnalyzer.new 4)
        [⟨1, o1, f1⟩, ⟨2, o2, f2⟩, ⟨3, o3, f3⟩, ⟨4, o4, f4⟩, ⟨1, o5, f5⟩, ⟨5, o6, f6⟩]).2.frames =
        [2, 3, 4, 5] ∧
      (processAll (PageFaultAnalyzer.new 4)
        [⟨1, o1, f1⟩, ⟨2, o2, f2⟩, ⟨3, o3, f3⟩, ⟨4, o4, f4⟩, ⟨1, o5, f5⟩, ⟨5, o6, f6⟩]).2.pageHits =
        1 ∧
      (processAll (PageFaultAnalyzer.new 4)
        [⟨1, o1, f1⟩, ⟨2, o2, f2⟩, ⟨3, o3, f3⟩, ⟨4, o4, f4⟩, ⟨1, o5, f5⟩, ⟨5, o6, f6⟩]).2.pageFaults =
        5) := by
  constructor
  · rw [processPageReference_hit s pageId operation filename h]
    exact ⟨rfl, rfl, rfl, wrapInt_of_range _ (by omega) (by omega), rfl, rfl, rfl⟩
  · intro o1 f1 o2 f2 o3 f3 o4 f4 o5 f5 o6 f6
    simp [processAll, processPageReference, PageFaultAnalyzer.new, logPageFault, evictOldest,
      toSizeT, wrapInt]

/-- The tracker with residents 1, 2, 3, 4 and a reference to 1. -/
theorem hit_leaves_residents_unchanged_witness :
    (processPageReference
      { frames := [1, 2, 3, 4], pageQueue := [1, 2, 3, 4], pageHistory := [],
        frameSize := 4, pageFaults := 4, pageHits := 0 } 1 "READ" "u_a").1 = true ∧
    (processPageReference
      { frames := [1, 2, 3, 4], pageQueue := [1, 2, 3, 4], pageHistory := [],
        frameSize := 4, pageFaults := 4, pageHits := 0 } 1 "READ" "u_a").2.frames =
      [1, 2, 3, 4] ∧
    (processPageReference
      { frames := [1, 2, 3, 4], pageQueue := [1, 2, 3, 4], pageHistory := [],
        frameSize := 4, pageFaults := 4, pageHits := 0 } 1 "READ" "u_a").2.pageHits = 0 + 1 :=
  have h := (hit_leaves_residents_unchanged
    { frames := [1, 2, 3, 4], pageQueue := [1, 2, 3, 4], pageHistory := [],
      frameSize := 4, pageFaults := 4, pageHits := 0 } 1 "READ" "u_a" (by decide) (by decide)
      (by decide)).1
  ⟨h.1, h.2.1, h.2.2.2.1⟩

/-! ## Reset -/

theorem popAll_eq_nil (q : List Int) : popAll q = [] := by
  induction q with
  | nil => rfl
  | cons a rest ih => simpa [popAll] using ih

theorem reset_eq_new (s : PageFaultAnalyzer) :
    PageFaultAnalyzer.reset s = PageFaultAnalyzer.new s.frameSize := by
  simp [PageFaultAnalyzer.reset, PageFaultAnalyzer.new, popAll_eq_nil]

/-- C4, refuted as stated: after `reset()` the statistics are not
`{0, 0, 0, 0.0}`; the three counts are 0 but `displayAnalysis` reports no hit
ratio at all. Here the tracker of capacity 4 has processed 1, 2, 1. -/
theorem no_hit_ratio_after_reset :
    (displayAnalysis (PageFaultAnalyzer.reset (processAll (PageFaultAnalyzer.new 4)
      [⟨1, "CREATE", "u_a"⟩, ⟨2, "WRITE", "u_a"⟩, ⟨1, "READ", "u_a"⟩]).2)).hitRatio = none ∧
    (displayAnalysis (PageFaultAnalyzer.reset (processAll (PageFaultAnalyzer.new 4)
      [⟨1, "CREATE", "u_a"⟩, ⟨2, "WRITE", "u_a"⟩, ⟨1, "READ", "u_a"⟩]).2)).hitRatio ≠
      some 0 := by
  rw [reset_eq_new]
  simp [displayAnalysis, hitRatioLine, PageFaultAnalyzer.new, wrapInt]

/-- C4, amended: whatever sequence of `processPageReference` calls a tracker
has gone through (from whatever state it started in), after `reset()` the hit
count is 0, the fault count is 0, the total `pageFaults + pageHits` is 0,
`frames`, the queue and the history are empty, and the state is that of a
freshly constructed tracker of the same capacity; `displayAnalysis` then
shows 0 references, 0 hits, 0 faults, no page in memory, no recent reference,
and no hit ratio line (rather than a ratio of 0.0). -/
theorem reset_restores_fresh_tracker (s : PageFaultAnalyzer) (refs : List Reference) :
    (PageFaultAnalyzer.reset (processAll s refs).2).pageHits = 0 ∧
    (PageFaultAnalyzer.reset (processAll s refs).2).pageFaults = 0 ∧
    (PageFaultAnalyzer.reset (processAll s refs).2).pageFaults +
      (PageFaultAnalyzer.reset (processAll s refs).2).pageHits = 0 ∧
    (PageFaultAnalyzer.reset (processAll s refs).2).frames = [] ∧
    (PageFaultAnalyzer.reset (processAll s refs).2).pageQueue = [] ∧
    (PageFaultAnalyzer.reset (processAll s refs).2).pageHistory = [] ∧
    PageFaultAnalyzer.reset (processAll s refs).2 = PageFaultAnalyzer.new s.frameSize ∧
    (displayAnalysis (PageFaultAnalyzer.reset (processAll s refs).2)).totalReferences = 0 ∧
    (displayAnalysis (PageFaultAnalyzer.reset (processAll s refs).2)).pageHits = 0 ∧
    (displayAnalysis (PageFaultAnalyzer.reset (processAll s refs).2)).pageFaults = 0 ∧
    (displayAnalysis (PageFaultAnalyzer.reset (processAll s refs).2)).pagesInMemory = [] ∧
    (displayAnalysis (PageFaultAnalyzer.reset (processAll s refs).2)).recentReferences = [] ∧
    (displayAnalysis (PageFaultAnalyzer.reset (processAll s refs).2)).hitRatio = none := by
  rw [reset_eq_new, processAll_frameSize]
  simp [PageFaultAnalyzer.new, displayAnalysis, recentLoop, hitRatioLine, wrapInt]

/-! ## The queue mirrors the resident set -/

theorem inv_runCalls (s : PageFaultAnalyzer) (calls : List Call)
    (hq : s.pageQueue = s.frames) (hn : s.frames.Nodup) :
    (runCalls s calls).pageQueue = (runCalls s calls).frames ∧
    (runCalls s calls).frames.Nodup := by
  induction calls generalizing s with
  | nil => exact ⟨hq, hn⟩
  | cons a rest ih =>
    cases a with
    | process r =>
      have hstep := inv_processPageReference s r.pageId r.operation r.filename hq hn
      exact ih _ hstep.1 hstep.2
    | reset =>
      refine ih (PageFaultAnalyzer.reset s) ?_ ?_
      · rw [reset_eq_new]; rfl
      · rw [reset_eq_new]; exact List.nodup_nil

/-- C5: in every state reached from a freshly constructed tracker, of any
capacity (negative and zero included), by any sequence of
`processPageReference` and `reset` calls, `frames` has no duplicate
identifier and `pageQueue` holds the same multiset of identifiers as `frames`
(it is a permutation of it; in fact the same sequence). -/
theorem frames_nodup_and_queue_perm (c : Int) (calls : List Call) :
    (runCalls (PageFaultAnalyzer.new c) calls).frames.Nodup ∧
    List.Perm (runCalls (PageFaultAnalyzer.new c) calls).pageQueue
      (runCalls (PageFaultAnalyzer.new c) calls).frames ∧
    (runCalls (PageFaultAnalyzer.new c) calls).pageQueue =
      (runCalls (PageFaultAnalyzer.new c) calls).frames := by
  obtain ⟨hq, hn⟩ := inv_runCalls (PageFaultAnalyzer.new c) calls rfl List.nodup_nil
  exact ⟨hn, by rw [hq], hq⟩

/-! ## The window of recent references -/

theorem recentLoop_eq (history : List PageReference) (i fuel : Nat) :
    recentLoop history i fuel = (history.drop i).take fuel := by
  induction fuel generalizing i with
  | zero => simp [recentLoop]
  | succ n ih =>
    unfold recentLoop
    split
    · rename_i h
      rw [ih, List.drop_eq_getElem_cons h, List.take_succ_cons]
      rfl
    · rename_i h
      rw [List.drop_eq_nil_of_le (by omega)]
      rfl

theorem recentLoop_full (history : List PageReference) (i : Nat) :
    recentLoop history i history.length = history.drop i := by
  rw [recentLoop_eq]
  exact List.take_of_length_le (by simp)

theorem recentStart_of_lt (history : List PageReference) (h : history.length < 2 ^ 31) :
    (recentStart history).toNat = history.length - 5 := by
  unfold recentStart toInt
  omega

/-- C6: for every sequence of `n` calls of `processPageReference` on an empty
tracker (of any capacity), with `n` in the range of the `int` that
`displayAnalysis` casts the history size to, the window of recent references
that `displayAnalysis` shows is the list of the records of the calls (the
identifier, operation and file name of each call with the hit/fault outcome
it returned, in call order) without its first `n - 5` entries: exactly the
last `min 5 n` processed references, in chronological order. After 7
references, `n - 5 = 2`: it is references 3 to 7. -/
theorem recent_window_is_last_five (c : Int) (refs : List Reference)
    (hn : refs.length < 2 ^ 31) :
    (displayAnalysis (processAll (PageFaultAnalyzer.new c) refs).2).recentReferences =
      (List.zipWith Reference.record refs (processAll (PageFaultAnalyzer.new c) refs).1).drop
        (refs.length - 5) ∧
    (displayAnalysis (processAll (PageFaultAnalyzer.new c) refs).2).recentReferences.length =
      min 5 refs.length ∧
    (List.zipWith Reference.record refs (processAll (PageFaultAnalyzer.new c) refs).1).length =
      refs.length := by
  have hhist : (processAll (PageFaultAnalyzer.new c) refs).2.pageHistory =
      List.zipWith Reference.record refs (processAll (PageFaultAnalyzer.new c) refs).1 := by
    rw [processAll_pageHistory]
    simp [PageFaultAnalyzer.new]
  have hlen : (List.zipWith Reference.record refs
      (processAll (PageFaultAnalyzer.new c) refs).1).length = refs.length := by
    simp [processAll_flags_length]
  have hwin : (displayAnalysis (processAll (PageFaultAnalyzer.new c) refs).2).recentReferences =
      (List.zipWith Reference.record refs (processAll (PageFaultAnalyzer.new c) refs).1).drop
        (refs.length - 5) := by
    simp only [displayAnalysis]
    rw [recentLoop_full, hhist, recentStart_of_lt _ (by rw [hlen]; exact hn), hlen]
  refine ⟨hwin, ?_, hlen⟩
  rw [hwin, List.length_drop, hlen]
  omega

/-- Capacity 4 and seven references: the window is references 3 to 7, the
fifth a hit. -/
theorem recent_window_is_last_five_witness :
    (displayAnalysis (processAll (PageFaultAnalyzer.new 4)
      [⟨1, "CREATE", "u_a"⟩, ⟨2, "WRITE", "u_a"⟩, ⟨3, "READ", "u_a"⟩, ⟨4, "CREATE", "u_b"⟩,
       ⟨3, "SEARCH", "u_a"⟩, ⟨5, "MODIFY", "u_b"⟩, ⟨6, "DELETE", "u_b"⟩]).2).recentReferences =
      [⟨3, "READ", "u_a", false⟩, ⟨4, "CREATE", "u_b", false⟩, ⟨3, "SEARCH", "u_a", true⟩,
       ⟨5, "MODIFY", "u_b", false⟩, ⟨6, "DELETE", "u_b", false⟩] :=
  (recent_window_is_last_five 4
    [⟨1, "CREATE", "u_a"⟩, ⟨2, "WRITE", "u_a"⟩, ⟨3, "READ", "u_a"⟩, ⟨4, "CREATE", "u_b"⟩,
     ⟨3, "SEARCH", "u_a"⟩, ⟨5, "MODIFY", "u_b"⟩, ⟨6, "DELETE", "u_b"⟩] (by decide)).1.trans
    (by decide)

/-! ## Capacities below one -/

theorem mem_frames_evictOldest (s : PageFaultAnalyzer) (x : Int)
    (hx : x ∈ (evictOldest s).frames) : x ∈ s.frames := by
  unfold evictOldest at hx
  split at hx
  · exact hx
  · exact List.mem_of_mem_filter hx

/-- A resident after a call was resident before it or is the identifier of the
call. -/
theorem mem_frames_processPageReference (s : PageFaultAnalyzer) (pageId : Int)
    (operation filename : String) (x : Int)
    (hx : x ∈ (processPageReference s pageId operation filename).2.frames) :
    x ∈ s.frames ∨ x = pageId := by
  unfold processPageReference logPageFault at hx
  split at hx
  · exact Or.inl hx
  · simp only [List.mem_append, List.mem_singleton] at hx
    rcases hx with hx | hx
    · left
      split at hx
      · exact mem_frames_evictOldest { s with pageFaults := wrapInt (s.pageFaults + 1) } x hx
      · exact hx
    · exact Or.inr hx

/-- A call made while `frames` is shorter than the converted capacity evicts
nothing. -/
theorem processPageReference_below_capacity (s : PageFaultAnalyzer) (pageId : Int)
    (operation filename : String) (hlt : s.frames.length < toSizeT s.frameSize) :
    (processPageReference s pageId operation filename).2.frames =
      if pageId ∈ s.frames then s.frames else s.frames ++ [pageId] := by
  unfold processPageReference logPageFault
  split
  · rfl
  · have hg : ¬ (toSizeT s.frameSize ≤ s.frames.length ∧ s.frames ≠ []) := fun hg => by omega
    simp only [if_neg hg]

theorem processAll_below_capacity (s : PageFaultAnalyzer) (refs : List Reference)
    (hlt : s.frames.length + refs.length ≤ toSizeT s.frameSize) (p : Int) :
    p ∈ (processAll s refs).2.frames ↔ p ∈ s.frames ∨ p ∈ refs.map Reference.pageId := by
  induction refs generalizing s with
  | nil => simp [processAll]
  | cons r rest ih =>
    simp only [processAll, List.map_cons, List.mem_cons]
    have hstep := processPageReference_below_capacity s r.pageId r.operation r.filename
      (by simp only [List.length_cons] at hlt; omega)
    have hlen : (processPageReference s r.pageId r.operation r.filename).2.frames.length ≤
        s.frames.length + 1 := by
      rw [hstep]
      split <;> simp
    rw [ih _ (by
      rw [processPageReference_frameSize]
      simp only [List.length_cons] at hlt
      omega), hstep]
    split
    · rename_i hmem
      constructor
      · rintro (h | h)
        · exact Or.inl h
        · exact Or.inr (Or.inr h)
      · rintro (h | h | h)
        · exact Or.inl h
        · exact Or.inl (h ▸ hmem)
        · exact Or.inr h
    · simp only [List.mem_append, List.mem_singleton]
      tauto

/-- C7, refuted as stated: the constructor has no failing path, and
`PageFaultAnalyzer(-1)` is a tracker that works: on the identifiers 7, 8, 7
it reports fault, fault, hit and holds `[7, 8]`. -/
theorem negative_capacity_is_accepted :
    (PageFaultAnalyzer.new (-1)).frameSize = -1 ∧
    (PageFaultAnalyzer.new (-1)).frames = [] ∧
    (processAll (PageFaultAnalyzer.new (-1))
      [⟨7, "CREATE", "u_a"⟩, ⟨8, "WRITE", "u_a"⟩, ⟨7, "READ", "u_a"⟩]).1 = [false, false, true] ∧
    (processAll (PageFaultAnalyzer.new (-1))
      [⟨7, "CREATE", "u_a"⟩, ⟨8, "WRITE", "u_a"⟩, ⟨7, "READ", "u_a"⟩]).2.frames = [7, 8] := by
  decide

/-- C7, amended: construction rejects no capacity. For every negative `int`
`c` (as for zero), `PageFaultAnalyzer(c)` is the empty tracker with
`frameSize = c` and zero counters; it is usable and, the capacity being
compared as a `size_t`, it never evicts: after any sequence of fewer than
`2 ^ 63` references the residents are exactly the identifiers processed, with
no duplicate. -/
theorem construction_accepts_every_capacity (c : Int) (hneg : c < 0) (hmin : -2 ^ 31 ≤ c)
    (refs : List Reference) (hlen : refs.length < 2 ^ 63) :
    PageFaultAnalyzer.new c =
      { frames := [], pageQueue := [], pageHistory := [], frameSize := c,
        pageFaults := 0, pageHits := 0 } ∧
    PageFaultAnalyzer.new 0 =
      { frames := [], pageQueue := [], pageHistory := [], frameSize := 0,
        pageFaults := 0, pageHits := 0 } ∧
    (∀ p : Int, p ∈ (processAll (PageFaultAnalyzer.new c) refs).2.frames ↔
      p ∈ refs.map Reference.pageId) ∧
    (processAll (PageFaultAnalyzer.new c) refs).2.frames.Nodup := by
  refine ⟨rfl, rfl, ?_, (inv_processAll _ refs rfl List.nodup_nil).2⟩
  intro p
  have hK : 2 ^ 63 ≤ toSizeT c := by
    unfold toSizeT
    omega
  have h := processAll_below_capacity (PageFaultAnalyzer.new c) refs
    (by
      have hfs : (PageFaultAnalyzer.new c).frameSize = c := rfl
      have hfr : (PageFaultAnalyzer.new c).frames = [] := rfl
      rw [hfs, hfr]
      simp only [List.length_nil]
      omega) p
  simpa [PageFaultAnalyzer.new] using h

/-- Capacity -4 and the identifiers 1 to 6 with a repeat: all six stay. -/
theorem construction_accepts_every_capacity_witness :
    (processAll (PageFaultAnalyzer.new (-4))
      [⟨1, "CREATE", "u_a"⟩, ⟨2, "WRITE", "u_a"⟩, ⟨3, "READ", "u_a"⟩, ⟨4, "CREATE", "u_b"⟩,
       ⟨2, "SEARCH", "u_a"⟩, ⟨5, "MODIFY", "u_b"⟩, ⟨6, "DELETE", "u_b"⟩]).2.frames.Nodup ∧
    (6 ∈ (processAll (PageFaultAnalyzer.new (-4))
      [⟨1, "CREATE", "u_a"⟩, ⟨2, "WRITE", "u_a"⟩, ⟨3, "READ", "u_a"⟩, ⟨4, "CREATE", "u_b"⟩,
       ⟨2, "SEARCH", "u_a"⟩, ⟨5, "MODIFY", "u_b"⟩, ⟨6, "DELETE", "u_b"⟩]).2.frames ↔
     6 ∈ ([⟨1, "CREATE", "u_a"⟩, ⟨2, "WRITE", "u_a"⟩, ⟨3, "READ", "u_a"⟩, ⟨4, "CREATE", "u_b"⟩,
       ⟨2, "SEARCH", "u_a"⟩, ⟨5, "MODIFY", "u_b"⟩, ⟨6, "DELETE", "u_b"⟩] :
         List Reference).map Reference.pageId) :=
  have h := construction_accepts_every_capacity (-4) (by decide) (by decide)
    [⟨1, "CREATE", "u_a"⟩, ⟨2, "WRITE", "u_a"⟩, ⟨3, "READ", "u_a"⟩, ⟨4, "CREATE", "u_b"⟩,
     ⟨2, "SEARCH", "u_a"⟩, ⟨5, "MODIFY", "u_b"⟩, ⟨6, "DELETE", "u_b"⟩] (by decide)
  ⟨h.2.2.2, h.2.2.1 6⟩

/-- With capacity 0 and at most one resident, a call leaves exactly its own
identifier resident. -/
theorem processPageReference_zero (s : PageFaultAnalyzer) (pageId : Int)
    (operation filename : String) (hc : s.frameSize = 0)
    (hq : s.pageQueue = s.frames) (hlen : s.frames.length ≤ 1) :
    (processPageReference s pageId operation filename).2.frames = [pageId] := by
  have hn : s.frames.Nodup := by
    cases hf : s.frames with
    | nil => exact List.nodup_nil
    | cons a l =>
      rw [hf] at hlen
      have : l = [] := List.length_eq_zero.mp (by simp only [List.length_cons] at hlen; omega)
      rw [this]
      exact List.nodup_singleton a
  by_cases h : pageId ∈ s.frames
  · rw [processPageReference_hit s pageId operation filename h]
    cases hf : s.frames with
    | nil => rw [hf] at h; simp at h
    | cons a l =>
      rw [hf] at hlen h
      have hl : l = [] := List.length_eq_zero.mp (by simp only [List.length_cons] at hlen; omega)
      subst hl
      simp only [List.mem_singleton] at h
      simp [h]
  · rw [(processPageReference_fault s pageId operation filename h hq hn).1, hc]
    cases hf : s.frames with
    | nil => simp
    | cons a l =>
      rw [hf] at hlen
      have hl : l = [] := List.length_eq_zero.mp (by simp only [List.length_cons] at hlen; omega)
      subst hl
      simp [toSizeT]

theorem processAll_zero_frames (refs : List Reference) (r : Reference) :
    (processAll (PageFaultAnalyzer.new 0) (refs ++ [r])).2.frames = [r.pageId] := by
  rw [(processAll_snoc _ refs r).1]
  have hq := (inv_processAll (PageFaultAnalyzer.new 0) refs rfl List.nodup_nil).1
  have hlen := length_processAll_le (PageFaultAnalyzer.new 0) refs rfl List.nodup_nil
    (by simp [PageFaultAnalyzer.new])
  exact processPageReference_zero _ _ _ _ (processAll_frameSize _ _) hq
    (by simpa [PageFaultAnalyzer.new, toSizeT] using hlen)

/-- C9, refuted as stated: with capacity 0 the identifier 7 is resident after
its first reference, and a second reference to it is a hit. -/
theorem zero_capacity_retains_and_hits :
    (processAll (PageFaultAnalyzer.new 0) [⟨7, "CREATE", "u_a"⟩]).2.frames = [7] ∧
    (processAll (PageFaultAnalyzer.new 0) [⟨7, "CREATE", "u_a"⟩, ⟨7, "READ", "u_a"⟩]).1 =
      [false, true] ∧
    (processAll (PageFaultAnalyzer.new 0) [⟨7, "CREATE", "u_a"⟩, ⟨7, "READ", "u_a"⟩]).2.frames =
      [7] := by
  decide

/-- C9, amended: with capacity 0 the tracker keeps one identifier, as with
capacity 1. The first call on an empty tracker reports a fault; after every
call exactly the identifier of that call is resident; and a later call
reports a hit when its identifier is the one of the call just before it, a
fault otherwise. -/
theorem zero_capacity_keeps_latest (refs : List Reference) (r next : Reference) :
    (processAll (PageFaultAnalyzer.new 0) [r]).1 = [false] ∧
    (processAll (PageFaultAnalyzer.new 0) (refs ++ [r])).2.frames = [r.pageId] ∧
    (processAll (PageFaultAnalyzer.new 0) (refs ++ [r] ++ [next])).1 =
      (processAll (PageFaultAnalyzer.new 0) (refs ++ [r])).1 ++
        [decide (next.pageId = r.pageId)] := by
  refine ⟨by simp [processAll, processPageReference, PageFaultAnalyzer.new],
    processAll_zero_frames refs r, ?_⟩
  rw [(processAll_snoc _ (refs ++ [r]) next).2, processPageReference_flag,
    processAll_zero_frames]
  simp

/-! ## The hit ratio line -/

theorem roundHalfEven_sub_le (q : ℚ) : |((roundHalfEven q : ℤ) : ℚ) - q| ≤ 1 / 2 := by
  have h1 : ((⌊q⌋ : ℤ) : ℚ) ≤ q := Int.floor_le q
  have h2 : q < ((⌊q⌋ : ℤ) : ℚ) + 1 := Int.lt_floor_add_one q
  unfold roundHalfEven
  rw [abs_le]
  split_ifs <;> constructor <;> push_cast <;> linarith

/-- An integer at distance below `1/2` is the rounded value. -/
theorem roundHalfEven_eq_of_lt (q : ℚ) (m : ℤ) (h : |q - (m : ℚ)| < 1 / 2) :
    roundHalfEven q = m := by
  have hr := roundHalfEven_sub_le q
  rw [abs_lt] at h
  rw [abs_le] at hr
  have h1 : ((roundHalfEven q : ℤ) : ℚ) < (m : ℚ) + 1 := by linarith
  have h2 : (m : ℚ) < ((roundHalfEven q : ℤ) : ℚ) + 1 := by linarith
  have h3 : roundHalfEven q < m + 1 := by exact_mod_cast h1
  have h4 : m < roundHalfEven q + 1 := by exact_mod_cast h2
  omega

theorem roundHalfEven_zero : roundHalfEven 0 = 0 :=
  roundHalfEven_eq_of_lt 0 0 (by norm_num)

theorem toDouble_exponent (q : ℚ) (e : ℤ) (hq : 0 < q) (hlo : (2 : ℚ) ^ e ≤ q)
    (hhi : q < (2 : ℚ) ^ (e + 1)) : Int.log 2 |q| = e := by
  rw [abs_of_pos hq]
  have h1 : e ≤ Int.log 2 q :=
    (Int.zpow_le_iff_le_log (by norm_num) hq).mp (by exact_mod_cast hlo)
  have h2 : Int.log 2 q < e + 1 :=
    (Int.lt_zpow_iff_log_lt (by norm_num) hq).mp (by exact_mod_cast hhi)
  omega

/-- Evaluation of `toDouble` at a positive `q` of known exponent. -/
theorem toDouble_eval (q : ℚ) (e : ℤ) (hq : 0 < q) (hlo : (2 : ℚ) ^ e ≤ q)
    (hhi : q < (2 : ℚ) ^ (e + 1)) (hmin : -1022 ≤ e) :
    toDouble q = ((roundHalfEven (q / (2 : ℚ) ^ (e - 52)) : ℤ) : ℚ) * (2 : ℚ) ^ (e - 52) := by
  unfold toDouble
  rw [if_neg (ne_of_gt hq)]
  have hexp := toDouble_exponent q e hq hlo hhi
  rw [abs_of_pos hq] at hexp
  simp only [abs_of_pos hq, hexp, max_eq_left hmin, if_neg (not_lt.mpr hq.le), one_mul]

/-- Relative error of a rounding to `double`: at most `2 ^ (-53)`. -/
theorem toDouble_sub_le (q : ℚ) (hmin : (2 : ℚ) ^ (-1022 : ℤ) ≤ q) :
    |toDouble q - q| ≤ q / 2 ^ 53 := by
  have hq : 0 < q := lt_of_lt_of_le (by positivity) hmin
  have hlo : (2 : ℚ) ^ Int.log 2 q ≤ q := by
    exact_mod_cast Int.zpow_log_le_self (b := 2) (by norm_num) hq
  have hhi : q < (2 : ℚ) ^ (Int.log 2 q + 1) := by
    exact_mod_cast Int.lt_zpow_succ_log_self (b := 2) (by norm_num) q
  have hemin : -1022 ≤ Int.log 2 q :=
    (Int.zpow_le_iff_le_log (by norm_num) hq).mp (by exact_mod_cast hmin)
  rw [toDouble_eval q (Int.log 2 q) hq hlo hhi hemin]
  have hulp : (0 : ℚ) < (2 : ℚ) ^ (Int.log 2 q - 52) := by positivity
  have hsplit : (2 : ℚ) ^ (Int.log 2 q - 52) * 2 ^ 52 = (2 : ℚ) ^ Int.log 2 q := by
    rw [zpow_sub₀ (by norm_num : (2 : ℚ) ≠ 0)]
    norm_num
  have hr := roundHalfEven_sub_le (q / (2 : ℚ) ^ (Int.log 2 q - 52))
  rw [abs_le] at hr ⊢
  have hq2 : q / (2 : ℚ) ^ (Int.log 2 q - 52) * (2 : ℚ) ^ (Int.log 2 q - 52) = q :=
    div_mul_cancel₀ q (ne_of_gt hulp)
  have hb1 := mul_le_mul_of_nonneg_right hr.1 hulp.le
  have hb2 := mul_le_mul_of_nonneg_right hr.2 hulp.le
  rw [sub_mul, hq2] at hb1 hb2
  have hdiv : q / 2 ^ 53 = q * (1 / 2 ^ 53) := by ring
  constructor <;> nlinarith [hsplit, hlo]

theorem toDouble_zero : toDouble 0 = 0 := by
  simp [toDouble]

theorem least_normal_le : (2 : ℚ) ^ (-1022 : ℤ) ≤ 1 / 2 ^ 32 := by
  rw [zpow_neg, one_div, inv_le_inv₀ (by positivity) (by positivity)]
  norm_num

/-- The value printed for `hits` out of `total` references is an integer
number of hundredths at distance at most one half of a hundredth from the
exact percentage. -/
theorem printed_ratio_nearest (hits total : Int) (hh : 0 ≤ hits) (hle : hits ≤ total)
    (hpos : 0 < total) (hlt : total < 2147483648) :
    |((roundHalfEven (toDouble (toDouble ((hits : ℚ) / (total : ℚ)) * 100) * 100) : ℤ) : ℚ) -
        10000 * (hits : ℚ) / (total : ℚ)| ≤ 1 / 2 := by
  have hnq : (0 : ℚ) < (total : ℚ) := by exact_mod_cast hpos
  have hnlt : (total : ℚ) < 2147483648 := by exact_mod_cast hlt
  by_cases h0 : hits = 0
  · subst h0
    simp [toDouble_zero, roundHalfEven_zero]
  · have hh1 : (1 : ℚ) ≤ (hits : ℚ) := by
      have : 1 ≤ hits := by omega
      exact_mod_cast this
    have hhn : (hits : ℚ) ≤ (total : ℚ) := by exact_mod_cast hle
    have hr1 : (hits : ℚ) / (total : ℚ) ≤ 1 := (div_le_one hnq).mpr hhn
    have hr0 : 1 / 2 ^ 31 ≤ (hits : ℚ) / (total : ℚ) := by
      rw [div_le_div_iff₀ (by positivity) hnq]
      nlinarith
    have hmin1 : (2 : ℚ) ^ (-1022 : ℤ) ≤ (hits : ℚ) / (total : ℚ) := by
      have := least_normal_le
      have h32 : (1 : ℚ) / 2 ^ 32 ≤ 1 / 2 ^ 31 := by norm_num
      linarith
    have e1 := toDouble_sub_le ((hits : ℚ) / (total : ℚ)) hmin1
    rw [abs_le] at e1
    have hx1lo : 1 / 2 ^ 32 ≤ toDouble ((hits : ℚ) / (total : ℚ)) := by
      have : (hits : ℚ) / (total : ℚ) / 2 ^ 53 ≤ (hits : ℚ) / (total : ℚ) / 2 := by
        apply div_le_div_of_nonneg_left (by linarith [show (0 : ℚ) < 1 / 2 ^ 31 by positivity])
          (by norm_num) (by norm_num)
      have h31 : (1 : ℚ) / 2 ^ 32 = 1 / 2 ^ 31 / 2 := by norm_num
      linarith
    have hx1hi : toDouble ((hits : ℚ) / (total : ℚ)) ≤ 2 := by
      have : (hits : ℚ) / (total : ℚ) / 2 ^ 53 ≤ 1 := by
        have : (hits : ℚ) / (total : ℚ) / 2 ^ 53 ≤ 1 / 2 ^ 53 :=
          div_le_div_of_nonneg_right hr1 (by positivity)
        have h53 : (1 : ℚ) / 2 ^ 53 ≤ 1 := by norm_num
        linarith
      linarith
    have hmin2 : (2 : ℚ) ^ (-1022 : ℤ) ≤ toDouble ((hits : ℚ) / (total : ℚ)) * 100 := by
      have := least_normal_le
      linarith
    have e2 := toDouble_sub_le (toDouble ((hits : ℚ) / (total : ℚ)) * 100) hmin2
    rw [abs_le] at e2
    have e3 := roundHalfEven_sub_le
      (toDouble (toDouble ((hits : ℚ) / (total : ℚ)) * 100) * 100)
    rw [abs_le] at e3
    have hy : 10000 * (hits : ℚ) / (total : ℚ) * (total : ℚ) = 10000 * (hits : ℚ) :=
      div_mul_cancel₀ _ (ne_of_gt hnq)
    have hy2 : 10000 * (hits : ℚ) / (total : ℚ) = 10000 * ((hits : ℚ) / (total : ℚ)) := by ring
    have hd1 : (hits : ℚ) / (total : ℚ) / 2 ^ 53 ≤ 1 / 2 ^ 53 :=
      div_le_div_of_nonneg_right hr1 (by positivity)
    have hd2 : toDouble ((hits : ℚ) / (total : ℚ)) * 100 / 2 ^ 53 ≤ 200 / 2 ^ 53 :=
      div_le_div_of_nonneg_right (by linarith) (by positivity)
    -- distance of the rounded value from the exact one, before integrality
    have hup : ((roundHalfEven
        (toDouble (toDouble ((hits : ℚ) / (total : ℚ)) * 100) * 100) : ℤ) : ℚ) -
        10000 * (hits : ℚ) / (total : ℚ) ≤ 1 / 2 + 30000 / 2 ^ 53 := by
      rw [hy2]; linarith
    have hdn : -(1 / 2 + 30000 / 2 ^ 53) ≤ ((roundHalfEven
        (toDouble (toDouble ((hits : ℚ) / (total : ℚ)) * 100) * 100) : ℤ) : ℚ) -
        10000 * (hits : ℚ) / (total : ℚ) := by
      rw [hy2]; linarith
    generalize roundHalfEven
      (toDouble (toDouble ((hits : ℚ) / (total : ℚ)) * 100) * 100) = K at hup hdn ⊢
    have hmul1 := mul_le_mul_of_nonneg_right hup hnq.le
    have hmul2 := mul_le_mul_of_nonneg_right hdn hnq.le
    rw [sub_mul, hy] at hmul1 hmul2
    have hsmall : 30000 / 2 ^ 53 * (total : ℚ) < 1 / 2 := by
      have : 30000 / 2 ^ 53 * (total : ℚ) ≤ 30000 / 2 ^ 53 * 2147483648 :=
        mul_le_mul_of_nonneg_left hnlt.le (by positivity)
      have h2 : (30000 : ℚ) / 2 ^ 53 * 2147483648 < 1 / 2 := by norm_num
      linarith
    have hq1 : ((2 * (K * total - 10000 * hits) : ℤ) : ℚ) < ((total + 1 : ℤ) : ℚ) := by
      push_cast
      nlinarith
    have hq2 : ((-(total + 1) : ℤ) : ℚ) < ((2 * (K * total - 10000 * hits) : ℤ) : ℚ) := by
      push_cast
      nlinarith
    have hz1 : 2 * (K * total - 10000 * hits) < total + 1 := by exact_mod_cast hq1
    have hz2 : -(total + 1) < 2 * (K * total - 10000 * hits) := by exact_mod_cast hq2
    have hz3 : 2 * (K * total - 10000 * hits) ≤ total := by omega
    have hz4 : -total ≤ 2 * (K * total - 10000 * hits) := by omega
    have hc3 : (2 : ℚ) * ((K : ℚ) * (total : ℚ) - 10000 * (hits : ℚ)) ≤ (total : ℚ) := by
      exact_mod_cast hz3
    have hc4 : -(total : ℚ) ≤ (2 : ℚ) * ((K : ℚ) * (total : ℚ) - 10000 * (hits : ℚ)) := by
      exact_mod_cast hz4
    have hrew : (K : ℚ) - 10000 * (hits : ℚ) / (total : ℚ) =
        ((K : ℚ) * (total : ℚ) - 10000 * (hits : ℚ)) / (total : ℚ) := by
      field_simp
    rw [hrew, abs_le, le_div_iff₀ hnq, div_le_iff₀ hnq]
    constructor <;> linarith

/-- Evaluation of `toDouble` from the exponent `e` of `q` and the integer `m`
nearest to `q` in units of the spacing. -/
theorem toDouble_of_nearest (q : ℚ) (e m : ℤ) (hq : 0 < q) (hlo : (2 : ℚ) ^ e ≤ q)
    (hhi : q < (2 : ℚ) ^ (e + 1)) (hmin : -1022 ≤ e)
    (hm : |q / (2 : ℚ) ^ (e - 52) - (m : ℚ)| < 1 / 2) :
    toDouble q = (m : ℚ) * (2 : ℚ) ^ (e - 52) := by
  rw [toDouble_eval q e hq hlo hhi hmin, roundHalfEven_eq_of_lt _ m hm]

/-- A tie above an even integer goes down to it. -/
theorem roundHalfEven_tie_even (m : ℤ) (hm : m % 2 = 0) :
    roundHalfEven ((m : ℚ) + 1 / 2) = m := by
  have hfloor : ⌊(m : ℚ) + 1 / 2⌋ = m := by
    rw [Int.floor_eq_iff]
    constructor <;> norm_num
  unfold roundHalfEven
  rw [hfloor]
  have h1 : ¬ ((m : ℚ) + 1 / 2 - (m : ℚ) < 1 / 2) := by norm_num
  have h2 : ¬ (1 / 2 < (m : ℚ) + 1 / 2 - (m : ℚ)) := by norm_num
  rw [if_neg h1, if_neg h2, if_pos hm]

/-- One hit out of 32 references: the quotient `1/32` and the product `3.125`
are both exact, and the tie is printed 3.12. -/
theorem hitRatioLine_one_of_32 :
    hitRatioLine { frames := [], pageQueue := [], pageHistory := [], frameSize := 4,
                   pageFaults := 31, pageHits := 1 } = some (312 / 100) := by
  have hw : wrapInt (31 + 1) = 32 := by decide
  have h1 : toDouble ((1 : ℚ) / 32) = 1 / 32 := by
    rw [toDouble_of_nearest (1 / 32) (-5) 4503599627370496 (by norm_num) (by norm_num)
      (by norm_num) (by norm_num) (by norm_num)]
    norm_num
  have h2 : toDouble ((1 : ℚ) / 32 * 100) = 25 / 8 := by
    rw [toDouble_of_nearest (1 / 32 * 100) 1 7036874417766400 (by norm_num) (by norm_num)
      (by norm_num) (by norm_num) (by norm_num)]
    norm_num
  have h3 : roundHalfEven ((25 : ℚ) / 8 * 100) = 312 := by
    have := roundHalfEven_tie_even 312 (by decide)
    norm_num at this ⊢
    exact this
  simp only [hitRatioLine, hw, fixed2]
  rw [if_pos (by decide)]
  simp only [Int.cast_one, Int.cast_ofNat, h1, h2, h3]

/-- One hit out of 160 references: the quotient is rounded, the product
rounds to `0.625` exactly, and the tie is printed 0.62. -/
theorem hitRatioLine_one_of_160 :
    hitRatioLine { frames := [], pageQueue := [], pageHistory := [], frameSize := 4,
                   pageFaults := 159, pageHits := 1 } = some (62 / 100) := by
  have hw : wrapInt (159 + 1) = 160 := by decide
  have h1 : toDouble ((1 : ℚ) / 160) = 7205759403792794 * (2 : ℚ) ^ (-8 - 52 : ℤ) :=
    toDouble_of_nearest (1 / 160) (-8) 7205759403792794 (by norm_num) (by norm_num)
      (by norm_num) (by norm_num) (by rw [abs_lt]; constructor <;> norm_num)
  have h2 : toDouble (7205759403792794 * (2 : ℚ) ^ (-8 - 52 : ℤ) * 100) = 5 / 8 := by
    rw [toDouble_of_nearest (7205759403792794 * (2 : ℚ) ^ (-8 - 52 : ℤ) * 100) (-1)
      5629499534213120 (by norm_num) (by norm_num) (by norm_num) (by norm_num)
      (by rw [abs_lt]; constructor <;> norm_num)]
    norm_num
  have h3 : roundHalfEven ((5 : ℚ) / 8 * 100) = 62 := by
    have := roundHalfEven_tie_even 62 (by decide)
    norm_num at this ⊢
    exact this
  simp only [hitRatioLine, hw, fixed2]
  rw [if_pos (by decide)]
  simp only [Int.cast_one, Int.cast_ofNat, h1, h2, h3]

/-- The ratio line of a tracker whose counters are non-negative with a sum in
the `int` range: a number of hundredths nearest to the exact percentage. -/
theorem hitRatioLine_nearest (s : PageFaultAnalyzer) (hh : 0 ≤ s.pageHits)
    (hf : 0 ≤ s.pageFaults) (hpos : 0 < s.pageFaults + s.pageHits)
    (hlt : s.pageFaults + s.pageHits < 2147483648) :
    ∃ k : ℤ, hitRatioLine s = some ((k : ℚ) / 100) ∧
      |(k : ℚ) / 100 - 100 * (s.pageHits : ℚ) / ((s.pageHits : ℚ) + (s.pageFaults : ℚ))| ≤
        1 / 200 := by
  have hw : wrapInt (s.pageFaults + s.pageHits) = s.pageFaults + s.pageHits :=
    wrapInt_of_range _ (by omega) (by omega)
  have hnear := printed_ratio_nearest s.pageHits (s.pageFaults + s.pageHits) hh (by omega)
    hpos hlt
  refine ⟨roundHalfEven (toDouble (toDouble ((s.pageHits : ℚ) /
    ((s.pageFaults + s.pageHits : Int) : ℚ)) * 100) * 100), ?_, ?_⟩
  · simp only [hitRatioLine, hw, fixed2]
    rw [if_pos hpos]
  · have hsum : ((s.pageFaults + s.pageHits : Int) : ℚ) =
        (s.pageHits : ℚ) + (s.pageFaults : ℚ) := by
      push_cast; ring
    have hposq : (0 : ℚ) < (s.pageHits : ℚ) + (s.pageFaults : ℚ) := by
      rw [← hsum]; exact_mod_cast hpos
    rw [hsum] at hnear ⊢
    rw [abs_le] at hnear ⊢
    have hrew : 100 * (s.pageHits : ℚ) / ((s.pageHits : ℚ) + (s.pageFaults : ℚ)) =
        10000 * (s.pageHits : ℚ) / ((s.pageHits : ℚ) + (s.pageFaults : ℚ)) / 100 := by
      ring
    rw [hrew]
    constructor <;> linarith

/-- C8, refuted as stated: on a tracker that has processed no reference,
`displayAnalysis` reports no hit ratio at all, rather than 0. -/
theorem no_hit_ratio_without_references :
    (displayAnalysis (PageFaultAnalyzer.new 4)).hitRatio = none ∧
    (displayAnalysis (PageFaultAnalyzer.new 4)).hitRatio ≠ some 0 := by
  simp [displayAnalysis, hitRatioLine, PageFaultAnalyzer.new, wrapInt]

/-- C8, amended: after any sequence of `n` references processed from a fresh
tracker, `n` in the `int` range, `pageFaults + pageHits` is `n`. When `n = 0`,
`displayAnalysis` prints no hit ratio line. When `n > 0` it prints a value
with two decimals that is nearest to the exact percentage
`100 * pageHits / (pageHits + pageFaults)`: a whole number of hundredths at
distance at most `0.005` from it. For one hit and five faults (capacity 4,
identifiers 1, 2, 3, 4, 1, 5) that is 16.67. Where the exact percentage lies
midway between two such values, the `double` decides: one hit and 31 faults
(3.125) is printed 3.12, one hit and 159 faults (0.625) is printed 0.62. -/
theorem hit_ratio_line_of_references (c : Int) (refs : List Reference)
    (hlen : refs.length < 2147483648) :
    (processAll (PageFaultAnalyzer.new c) refs).2.pageFaults +
      (processAll (PageFaultAnalyzer.new c) refs).2.pageHits = (refs.length : Int) ∧
    (if refs = [] then
       (displayAnalysis (processAll (PageFaultAnalyzer.new c) refs).2).hitRatio = none
     else
       ∃ k : ℤ,
         (displayAnalysis (processAll (PageFaultAnalyzer.new c) refs).2).hitRatio =
           some ((k : ℚ) / 100) ∧
         |(k : ℚ) / 100 -
            100 * ((processAll (PageFaultAnalyzer.new c) refs).2.pageHits : ℚ) /
              (((processAll (PageFaultAnalyzer.new c) refs).2.pageHits : ℚ) +
                ((processAll (PageFaultAnalyzer.new c) refs).2.pageFaults : ℚ))| ≤ 1 / 200) ∧
    (displayAnalysis (processAll (PageFaultAnalyzer.new 4)
      [⟨1, "CREATE", "u_a"⟩, ⟨2, "WRITE", "u_a"⟩, ⟨3, "READ", "u_a"⟩, ⟨4, "CREATE", "u_b"⟩,
       ⟨1, "SEARCH", "u_a"⟩, ⟨5, "MODIFY", "u_b"⟩]).2).hitRatio = some (1667 / 100) ∧
    (displayAnalysis { frames := [], pageQueue := [], pageHistory := [], frameSize := 4,
                       pageFaults := 31, pageHits := 1 }).hitRatio = some (312 / 100) ∧
    (displayAnalysis { frames := [], pageQueue := [], pageHistory := [], frameSize := 4,
                       pageFaults := 159, pageHits := 1 }).hitRatio = some (62 / 100) := by
  have hcount := processAll_counters (PageFaultAnalyzer.new c) refs (le_refl _) (le_refl _)
    (by
      have h0 : (PageFaultAnalyzer.new c).pageFaults = 0 := rfl
      have h1 : (PageFaultAnalyzer.new c).pageHits = 0 := rfl
      rw [h0, h1]
      omega)
  obtain ⟨hh, hf, htotal⟩ := hcount
  have htotal2 : (processAll (PageFaultAnalyzer.new c) refs).2.pageFaults +
      (processAll (PageFaultAnalyzer.new c) refs).2.pageHits = (refs.length : Int) := by
    rw [htotal]
    simp [PageFaultAnalyzer.new]
  refine ⟨htotal2, ?_, ?_, hitRatioLine_one_of_32, hitRatioLine_one_of_160⟩
  · by_cases he : refs = []
    · subst he
      rw [if_pos rfl]
      simp [displayAnalysis, hitRatioLine, processAll, PageFaultAnalyzer.new, wrapInt]
    · rw [if_neg he]
      have hpos : 0 < refs.length := List.length_pos.mpr he
      exact hitRatioLine_nearest _ hh hf (by rw [htotal2]; exact_mod_cast hpos)
        (by rw [htotal2]; exact_mod_cast hlen)
  · have hh : (processAll (PageFaultAnalyzer.new 4)
        [⟨1, "CREATE", "u_a"⟩, ⟨2, "WRITE", "u_a"⟩, ⟨3, "READ", "u_a"⟩, ⟨4, "CREATE", "u_b"⟩,
         ⟨1, "SEARCH", "u_a"⟩, ⟨5, "MODIFY", "u_b"⟩]).2.pageHits = 1 := by
      simp [processAll, processPageReference, PageFaultAnalyzer.new, logPageFault, evictOldest,
        toSizeT, wrapInt]
    have hf : (processAll (PageFaultAnalyzer.new 4)
        [⟨1, "CREATE", "u_a"⟩, ⟨2, "WRITE", "u_a"⟩, ⟨3, "READ", "u_a"⟩, ⟨4, "CREATE", "u_b"⟩,
         ⟨1, "SEARCH", "u_a"⟩, ⟨5, "MODIFY", "u_b"⟩]).2.pageFaults = 5 := by
      simp [processAll, processPageReference, PageFaultAnalyzer.new, logPageFault, evictOldest,
        toSizeT, wrapInt]
    obtain ⟨k, hk, hb⟩ := hitRatioLine_nearest (processAll (PageFaultAnalyzer.new 4)
        [⟨1, "CREATE", "u_a"⟩, ⟨2, "WRITE", "u_a"⟩, ⟨3, "READ", "u_a"⟩, ⟨4, "CREATE", "u_b"⟩,
         ⟨1, "SEARCH", "u_a"⟩, ⟨5, "MODIFY", "u_b"⟩]).2
      (by rw [hh]; decide) (by rw [hf]; decide) (by rw [hh, hf]; decide)
      (by rw [hh, hf]; decide)
    rw [hh, hf, abs_le] at hb
    have hk1 : ((1666 : ℤ) : ℚ) < (k : ℚ) := by
      push_cast
      norm_num at hb
      linarith
    have hk2 : (k : ℚ) < ((1668 : ℤ) : ℚ) := by
      push_cast
      norm_num at hb
      linarith
    have hk3 : 1666 < k := by exact_mod_cast hk1
    have hk4 : k < 1668 := by exact_mod_cast hk2
    have hk5 : k = 1667 := by omega
    simp only [displayAnalysis]
    rw [hk, hk5]
    norm_num

/-- Capacity 4 and the identifiers 1, 2, 3, 4, 1, 5: six references counted. -/
theorem hit_ratio_line_of_references_witness :
    (processAll (PageFaultAnalyzer.new 4)
      [⟨1, "CREATE", "u_a"⟩, ⟨2, "WRITE", "u_a"⟩, ⟨3, "READ", "u_a"⟩, ⟨4, "CREATE", "u_b"⟩,
       ⟨1, "SEARCH", "u_a"⟩, ⟨5, "MODIFY", "u_b"⟩]).2.pageFaults +
    (processAll (PageFaultAnalyzer.new 4)
      [⟨1, "CREATE", "u_a"⟩, ⟨2, "WRITE", "u_a"⟩, ⟨3, "READ", "u_a"⟩, ⟨4, "CREATE", "u_b"⟩,
       ⟨1, "SEARCH", "u_a"⟩, ⟨5, "MODIFY", "u_b"⟩]).2.pageHits = ((6 : Nat) : Int) :=
  (hit_ratio_line_of_references 4
    [⟨1, "CREATE", "u_a"⟩, ⟨2, "WRITE", "u_a"⟩, ⟨3, "READ", "u_a"⟩, ⟨4, "CREATE", "u_b"⟩,
     ⟨1, "SEARCH", "u_a"⟩, ⟨5, "MODIFY", "u_b"⟩] (by decide)).1

/-! ## The whole program: every logged operation is a fault -/

theorem runActions_snoc (fms : FileManagementSystem) (actions : List Action) (a : Action) :
    runActions fms (actions ++ [a]) = Action.apply (runActions fms actions) a := by
  simp [runActions]

theorem loggedSinceReset_snoc_log (actions : List Action) (operation filename : String) :
    loggedSinceReset (actions ++ [Action.logOperation operation filename]) =
      loggedSinceReset actions + 1 := by
  induction actions with
  | nil => simp [loggedSinceReset]
  | cons a rest ih =>
    cases a with
    | logOperation o f =>
      show loggedSinceReset (Action.logOperation o f ::
        (rest ++ [Action.logOperation operation filename])) = _
      simp only [loggedSinceReset, List.mem_append, List.mem_singleton, reduceCtorEq,
        or_false, ih]
      split <;> rfl
    | resetPageFaultAnalysis =>
      show loggedSinceReset (Action.resetPageFaultAnalysis ::
        (rest ++ [Action.logOperation operation filename])) = _
      simp only [loggedSinceReset, ih]

theorem loggedSinceReset_snoc_reset (actions : List Action) :
    loggedSinceReset (actions ++ [Action.resetPageFaultAnalysis]) = 0 := by
  induction actions with
  | nil => simp [loggedSinceReset]
  | cons a rest ih =>
    cases a with
    | logOperation o f =>
      show loggedSinceReset (Action.logOperation o f ::
        (rest ++ [Action.resetPageFaultAnalysis])) = _
      simp [loggedSinceReset, ih]
    | resetPageFaultAnalysis =>
      show loggedSinceReset (Action.resetPageFaultAnalysis ::
        (rest ++ [Action.resetPageFaultAnalysis])) = _
      simp only [loggedSinceReset, ih]

theorem runActions_cons (fms : FileManagementSystem) (a : Action) (actions : List Action) :
    runActions fms (a :: actions) = runActions (Action.apply fms a) actions := by
  simp [runActions]

theorem nextPageIdOverflows_snoc_log (fms : FileManagementSystem) (actions : List Action)
    (operation filename : String) :
    nextPageIdOverflows fms (actions ++ [Action.logOperation operation filename]) =
      (nextPageIdOverflows fms actions ||
        decide (2147483647 ≤ (runActions fms actions).nextPageId)) := by
  induction actions generalizing fms with
  | nil => simp [nextPageIdOverflows, runActions]
  | cons a rest ih =>
    cases a with
    | logOperation o f =>
      show nextPageIdOverflows fms (Action.logOperation o f ::
        (rest ++ [Action.logOperation operation filename])) = _
      simp only [nextPageIdOverflows, ih, runActions_cons, Action.apply, Bool.or_assoc]
    | resetPageFaultAnalysis =>
      show nextPageIdOverflows fms (Action.resetPageFaultAnalysis ::
        (rest ++ [Action.logOperation operation filename])) = _
      simp only [nextPageIdOverflows, ih, runActions_cons, Action.apply]

theorem nextPageIdOverflows_snoc_reset (fms : FileManagementSystem) (actions : List Action) :
    nextPageIdOverflows fms (actions ++ [Action.resetPageFaultAnalysis]) =
      nextPageIdOverflows fms actions := by
  induction actions generalizing fms with
  | nil => simp [nextPageIdOverflows]
  | cons a rest ih =>
    cases a with
    | logOperation o f =>
      show nextPageIdOverflows fms (Action.logOperation o f ::
        (rest ++ [Action.resetPageFaultAnalysis])) = _
      simp only [nextPageIdOverflows, ih]
    | resetPageFaultAnalysis =>
      show nextPageIdOverflows fms (Action.resetPageFaultAnalysis ::
        (rest ++ [Action.resetPageFaultAnalysis])) = _
      simp only [nextPageIdOverflows, ih]

/-- What holds after every sequence of actions in which `nextPageId` does not
overflow: every resident is below `nextPageId`, no hit was counted, and the
fault counter follows `nextPageId` and the number of operations logged since
the last reset. -/
theorem runActions_invariant (actions : List Action)
    (hno : nextPageIdOverflows FileManagementSystem.new actions = false) :
    1 ≤ (runActions FileManagementSystem.new actions).nextPageId ∧
    (∀ p ∈ (runActions FileManagementSystem.new actions).pageAnalyzer.frames,
      p < (runActions FileManagementSystem.new actions).nextPageId) ∧
    (runActions FileManagementSystem.new actions).pageAnalyzer.pageHits = 0 ∧
    (runActions FileManagementSystem.new actions).pageAnalyzer.pageFaults =
      (loggedSinceReset actions : Int) ∧
    (runActions FileManagementSystem.new actions).pageAnalyzer.pageFaults =
      (runActions FileManagementSystem.new actions).nextPageId - 1 := by
  induction actions using List.reverseRecOn with
  | nil =>
    simp [runActions, FileManagementSystem.new, PageFaultAnalyzer.new, loggedSinceReset]
  | append_singleton l a ih =>
    rw [runActions_snoc]
    cases a with
    | logOperation o f =>
      rw [nextPageIdOverflows_snoc_log, Bool.or_eq_false_iff, decide_eq_false_iff_not] at hno
      obtain ⟨hpos, hlt, hhits, hcount, hnext⟩ := ih hno.1
      have hmax : (runActions FileManagementSystem.new l).nextPageId < 2147483647 := by
        have := hno.2
        omega
      have hnotin : (runActions FileManagementSystem.new l).nextPageId ∉
          (runActions FileManagementSystem.new l).pageAnalyzer.frames :=
        fun hm => lt_irrefl _ (hlt _ hm)
      obtain ⟨hc1, hc2⟩ := processPageReference_counters
        (runActions FileManagementSystem.new l).pageAnalyzer
        (runActions FileManagementSystem.new l).nextPageId o f
      rw [if_neg hnotin] at hc1 hc2
      rw [wrapInt_of_range _ (by omega) (by omega)] at hc2
      simp only [Action.apply, FileManagementSystem.logOperation,
        FileManagementSystem.logOperationFlag, FileManagementSystem.generatePageId]
      rw [wrapInt_of_range _ (by omega) (by omega)]
      refine ⟨by omega, ?_, ?_, ?_, ?_⟩
      · intro p hp
        rcases mem_frames_processPageReference _ _ _ _ _ hp with h | h
        · have := hlt p h
          omega
        · omega
      · rw [hc1, hhits]
      · rw [hc2, hcount, loggedSinceReset_snoc_log]
        push_cast
        rfl
      · rw [hc2, hnext]
        omega
    | resetPageFaultAnalysis =>
      simp [Action.apply, FileManagementSystem.resetPageFaultAnalysis, reset_eq_new,
        PageFaultAnalyzer.new, loggedSinceReset_snoc_reset]

/-- C10: in the whole program, after every sequence of `logOperation` and
`resetPageFaultAnalysis` calls from a freshly constructed
`FileManagementSystem` in which `nextPageId` does not overflow `int`, the
identifier that the next `logOperation` passes to `processPageReference`,
`nextPageId`, is strictly greater than every identifier in `frames`, so that
call is a page fault, whatever its operation and file name; `pageHits` is 0,
and `pageFaults` is the number of operations logged since the last reset,
which is `nextPageId - 1`. -/
theorem every_logged_operation_is_a_fault (actions : List Action)
    (operation filename : String)
    (hno : nextPageIdOverflows FileManagementSystem.new actions = false) :
    (∀ p ∈ (runActions FileManagementSystem.new actions).pageAnalyzer.frames,
      p < (FileManagementSystem.generatePageId (runActions FileManagementSystem.new actions)
        operation filename).1) ∧
    (FileManagementSystem.logOperationFlag (runActions FileManagementSystem.new actions)
      operation filename).1 = false ∧
    (runActions FileManagementSystem.new actions).pageAnalyzer.pageHits = 0 ∧
    (runActions FileManagementSystem.new actions).pageAnalyzer.pageFaults =
      (loggedSinceReset actions : Int) ∧
    (runActions FileManagementSystem.new actions).pageAnalyzer.pageFaults =
      (runActions FileManagementSystem.new actions).nextPageId - 1 := by
  obtain ⟨-, hlt, hhits, hcount, hnext⟩ := runActions_invariant actions hno
  refine ⟨hlt, ?_, hhits, hcount, hnext⟩
  simp only [FileManagementSystem.logOperationFlag, FileManagementSystem.generatePageId,
    processPageReference_flag, decide_eq_false_iff_not]
  exact fun hm => lt_irrefl _ (hlt _ hm)

/-- Six operations on three files with a reset after the fifth: the seventh
operation is a fault, and one fault is counted since the reset. -/
theorem every_logged_operation_is_a_fault_witness :
    (FileManagementSystem.logOperationFlag (runActions FileManagementSystem.new
      [Action.logOperation "CREATE" "u_a", Action.logOperation "WRITE" "u_a",
       Action.logOperation "READ" "u_a", Action.logOperation "CREATE" "u_b",
       Action.logOperation "READ" "u_a", Action.resetPageFaultAnalysis,
       Action.logOperation "READ" "u_a"]) "DELETE" "u_b").1 = false ∧
    (runActions FileManagementSystem.new
      [Action.logOperation "CREATE" "u_a", Action.logOperation "WRITE" "u_a",
       Action.logOperation "READ" "u_a", Action.logOperation "CREATE" "u_b",
       Action.logOperation "READ" "u_a", Action.resetPageFaultAnalysis,
       Action.logOperation "READ" "u_a"]).pageAnalyzer.pageFaults = ((1 : Nat) : Int) :=
  have h := every_logged_operation_is_a_fault
    [Action.logOperation "CREATE" "u_a", Action.logOperation "WRITE" "u_a",
     Action.logOperation "READ" "u_a", Action.logOperation "CREATE" "u_b",
     Action.logOperation "READ" "u_a", Action.resetPageFaultAnalysis,
     Action.logOperation "READ" "u_a"] "DELETE" "u_b" (by decide)
  ⟨h.2.1, h.2.2.2.1.trans (by decide)⟩

end OSProject
